import Mathlib

/-!
Verification of the bid-placement and winner-resolution engine of the
youtuber-bidding-api repository against its natural-language specification.

The definitions below are a shallow embedding of the Python/Django source:

* `Item.save`              — `auctions/models.py`, `Item.save`
* `Bid.clean` logic        — `auctions/models.py`, `Bid.clean` / `Bid.save`
  (embedded in `commitTx`)
* `check_bid_rate_limit`   — `auctions/views/utils.py`
* `place_bid`              — `auctions/views/item.py`, `ItemViewSet.place_bid`
* `resolveList`            — `auctions/management/commands/update_auction_winners.py`,
  `Command.handle`

Monetary amounts (Django `DecimalField`, parsed floats) are modelled as exact
rationals `ℚ`; timestamps as integers `Int`; database rows as Lean structures.
A table is a `List` of rows; updating a row replaces the corresponding list
element.  Fallible operations return `Option`.
-/

namespace Auctions

/-- A `Bid` row (`auctions/models.py`): bidder reference (nullable, the FK is
declared `null=True`), and the amount.  The `item` FK is represented by
keeping each bid inside its item's `bids` list; `created_at` is irrelevant to
the verified claims and omitted. -/
structure Bid where
  bidder : Option Nat
  amount : ℚ
deriving DecidableEq, Repr

/-- A `BidAttempt` row (`auctions/models.py`): user FK (non-nullable in the
model), origin IP address (abstracted to `Nat`), timestamp, success flag. -/
structure BidAttempt where
  user : Nat
  ip : Nat
  timestamp : Int
  success : Bool
deriving DecidableEq, Repr

/-- An `Item` (listing) row (`auctions/models.py`).  Fields irrelevant to the
claims (title, description, category, images, …) are omitted.  `winner` is a
nullable user FK; `bids` is the reverse FK accessor `item.bids`. -/
structure Item where
  id : Nat
  starting_price : ℚ
  current_price : ℚ
  end_date : Int
  is_active : Bool
  winner : Option Nat
  winner_notified : Bool
  winner_contacted : Option Int
  bids : List Bid
deriving DecidableEq, Repr

/-- Embedding of `Item.save` (`auctions/models.py` lines 218-229).  For a persisted row the
guard `not self.id or not self.current_price` reduces to the price being the
falsy `Decimal` zero, in which case `current_price` is reset to
`starting_price`; then a winner set while `end_date > now` is cleared together
with `winner_notified` and `winner_contacted`. -/
def Item.save (now : Int) (item : Item) : Item :=
  let item1 :=
    if item.current_price = 0 then
      { item with current_price := item.starting_price }
    else item
  if item1.winner.isSome ∧ now < item1.end_date then
    { item1 with winner := none, winner_notified := false, winner_contacted := none }
  else item1

/-- Embedding of `Bid.objects.filter(item=item).order_by("-amount").first()`: the bid with
the maximal amount (the earlier row wins ties). -/
def highestBid : List Bid → Option Bid
  | [] => none
  | b :: bs =>
    match highestBid bs with
    | none => some b
    | some h => if b.amount < h.amount then some h else some b

/-- Embedding of `check_bid_rate_limit` (`auctions/views/utils.py` lines 89-98): count the
`BidAttempt` rows whose `ip_address` matches and whose timestamp is within the
trailing 60-second window, additionally filtering by `user` when the requester
is authenticated; deny once the count reaches `MAX_BID_ATTEMPTS = 10`. -/
def check_bid_rate_limit (now : Int) (attempts : List BidAttempt)
    (user : Option Nat) (ip : Nat) : Bool :=
  10 ≤ (attempts.filter fun a =>
    a.ip == ip && decide (now - 60 ≤ a.timestamp) &&
      (match user with
       | some u => a.user == u
       | none => true)).length

/-- The rate-limit predicate exactly as claim C5 states it: the actor key is
the bidder identity alone when the actor is authenticated, and the origin
address otherwise. -/
def check_bid_rate_limit_claimed (now : Int) (attempts : List BidAttempt)
    (user : Option Nat) (ip : Nat) : Bool :=
  10 ≤ (attempts.filter fun a =>
    (match user with
     | some u => a.user == u
     | none => a.ip == ip) && decide (now - 60 ≤ a.timestamp)).length

/-- The rate-limit predicate as the amended claim states it: the actor key is
the (bidder identity, origin address) pair when authenticated, and the origin
address alone otherwise. -/
def check_bid_rate_limit_amended (now : Int) (attempts : List BidAttempt)
    (user : Option Nat) (ip : Nat) : Bool :=
  10 ≤ (attempts.filter fun a =>
    (match user with
     | some u => a.user == u && a.ip == ip
     | none => a.ip == ip) && decide (now - 60 ≤ a.timestamp)).length

/-- Prices, verdict and state for `ItemViewSet.place_bid`
(`auctions/views/item.py` lines 504-633).  One constructor per `Response`
branch of the view. -/
inductive BidOutcome where
  | tooManyAttempts
  | invalidAmount
  | itemNotFound
  | notAvailable
  | belowCurrentPrice
  | belowMinIncrement
  | exceedsMaxJump
  | errorRolledBack
  | created (amount : ℚ)
deriving DecidableEq, Repr

/-- The database state touched by bid placement: the `Item` table and the
`BidAttempt` table. -/
structure AuctionState where
  items : List Item
  attempts : List BidAttempt
deriving DecidableEq, Repr

/-- A bid request: authenticated user (the view requires `IsAuthenticated`),
origin address, target item pk, and the submitted amount.  `none` models a
value that `float(...)` fails to parse (`ValueError`/`TypeError`). -/
structure BidRequest where
  user : Nat
  ip : Nat
  itemId : Nat
  amount : Option ℚ
deriving DecidableEq, Repr

/-- The pre-transaction validation of `place_bid` against a listing snapshot
(`auctions/views/item.py` lines 539-581), in source order: active/ended check,
current-price check, minimum-increment check, maximum-jump check against the
highest prior bid.  `none` means the snapshot validation passes. -/
def validateBid (now : Int) (item : Item) (amount : ℚ) : Option BidOutcome :=
  if ¬ item.is_active ∨ item.end_date < now then some BidOutcome.notAvailable
  else if amount ≤ item.current_price then some BidOutcome.belowCurrentPrice
  else if amount < item.current_price + 1 then some BidOutcome.belowMinIncrement
  else
    match highestBid item.bids with
    | some hb =>
        if hb.amount * 2 < amount then some BidOutcome.exceedsMaxJump
        else none
    | none => none

/-- The body of the `transaction.atomic()` block of `place_bid`
(`auctions/views/item.py` lines 588-597) evaluated against the item state the
transaction sees.  `Bid.objects.create` runs `Bid.save`, whose `full_clean`
applies `MinValueValidator(0.01)` to the amount and `Bid.clean`
(`auctions/models.py` lines 249-256), which re-reads the highest existing bid
and rejects an amount above twice it; a `ValidationError` rolls the
transaction back (`none`).  Otherwise the `Bid` row is inserted and
`item.current_price` is updated to the amount
(`item.save(update_fields=["current_price"])` writes only that column). -/
def commitTx (_now : Int) (item : Item) (user : Nat) (amount : ℚ) : Option Item :=
  if amount < mkRat 1 100 then none
  else
    match highestBid item.bids with
    | some hb =>
        if hb.amount * 2 < amount then none
        else some { item with
          current_price := amount,
          bids := item.bids ++ [⟨some user, amount⟩] }
    | none => some { item with
        current_price := amount,
        bids := item.bids ++ [⟨some user, amount⟩] }

/-- Embedding of `bid_attempt.success = True; bid_attempt.save(update_fields=["success"])`:
flip the success flag of the placeholder attempt row (the last one written). -/
def markLastSuccess : List BidAttempt → List BidAttempt
  | [] => []
  | [a] => [{ a with success := true }]
  | a :: rest => a :: markLastSuccess rest

/-- Embedding of `ItemViewSet.place_bid` (`auctions/views/item.py` lines 504-633), in
source order: rate-limit check; amount parse and positivity check; item
lookup; `BidAttempt` row written with `success=False`; snapshot validation
(`validateBid`); then the atomic commit (`commitTx`), which on success flips
the attempt row to `success=True`.  The outbid notification is an external,
fire-and-forget side effect and is not part of the state. -/
def place_bid (now : Int) (s : AuctionState) (r : BidRequest) :
    BidOutcome × AuctionState :=
  if check_bid_rate_limit now s.attempts (some r.user) r.ip then
    (BidOutcome.tooManyAttempts, s)
  else
    match r.amount with
    | none => (BidOutcome.invalidAmount, s)
    | some amount =>
      if amount ≤ 0 then (BidOutcome.invalidAmount, s)
      else
        match s.items.find? (fun i => i.id == r.itemId) with
        | none => (BidOutcome.itemNotFound, s)
        | some item =>
          let s2 : AuctionState :=
            { s with attempts := s.attempts ++ [⟨r.user, r.ip, now, false⟩] }
          match validateBid now item amount with
          | some v => (v, s2)
          | none =>
            match commitTx now item r.user amount with
            | some item2 =>
                (BidOutcome.created amount,
                  { items := s2.items.map fun j => if j.id == item.id then item2 else j,
                    attempts := markLastSuccess s2.attempts })
            | none => (BidOutcome.errorRolledBack, s2)

/-- Extract the amount from a `created` outcome. -/
def isCreated : BidOutcome → Option ℚ
  | BidOutcome.created a => some a
  | _ => none

/-- Run a sequence of bid requests in order, returning the final state and the
trace of accepted (created) amounts in commit order. -/
def runBidsTrace (now : Int) : AuctionState → List BidRequest → AuctionState × List ℚ
  | s, [] => (s, [])
  | s, r :: rs =>
    match isCreated (place_bid now s r).1 with
    | some a =>
        ((runBidsTrace now (place_bid now s r).2 rs).1,
          a :: (runBidsTrace now (place_bid now s r).2 rs).2)
    | none => runBidsTrace now (place_bid now s r).2 rs

/-- A single `place_bid` request under a concurrent schedule, split at the
transaction boundary exactly as in the source: the fast-path validation
(`validateBid`, `auctions/views/item.py` lines 539-581) runs against the
snapshot read by this worker, while the `transaction.atomic()` body
(`commitTx`) runs later against whatever state the database then holds —
another worker's commit may land in between.  In the purely sequential run
(`place_bid`) the two states coincide; `stale` and `fresh` differing models
the interleaving. -/
def placeBidPhased (now : Int) (stale fresh : Item) (user : Nat) (amount : ℚ) :
    Option Item :=
  match validateBid now stale amount with
  | some _ => none
  | none => commitTx now fresh user amount

/-- Lemma: `markLastSuccess` preserves the number of attempt rows. -/
theorem markLastSuccess_length (l : List BidAttempt) :
    (markLastSuccess l).length = l.length := by
  induction l with
  | nil => rfl
  | cons a t ih => cases t <;> simp_all [markLastSuccess]

/-- Unfolding of `place_bid` once the rate limiter allows, the amount parses
positive and the item lookup succeeds. -/
theorem place_bid_found (now : Int) (s : AuctionState) (r : BidRequest)
    (a : ℚ) (item : Item)
    (hrl : check_bid_rate_limit now s.attempts (some r.user) r.ip = false)
    (ha : r.amount = some a) (hpos : 0 < a)
    (hfind : s.items.find? (fun i => i.id == r.itemId) = some item) :
    place_bid now s r =
      (match validateBid now item a with
       | some v => (v, { s with attempts := s.attempts ++ [⟨r.user, r.ip, now, false⟩] })
       | none =>
         match commitTx now item r.user a with
         | some item2 =>
             (BidOutcome.created a,
               { items := s.items.map fun j => if j.id == item.id then item2 else j,
                 attempts := markLastSuccess (s.attempts ++ [⟨r.user, r.ip, now, false⟩]) })
         | none =>
             (BidOutcome.errorRolledBack,
               { s with attempts := s.attempts ++ [⟨r.user, r.ip, now, false⟩] })) := by
  unfold place_bid
  rw [hrl, ha, hfind]
  simp [not_le.mpr hpos]

/-- Counterexample to claim C1: a commit whose freshly read listing state
fails the fast-path validation (current price 25 exceeds the candidate amount
20, so re-validation would reject with `BelowCurrentPrice`) nevertheless
succeeds and even lowers `current_price` to 20 — the transaction re-checks
only the maximum-jump rule, not the listing state. -/
theorem commit_no_revalidation_counterexample :
    (commitTx 100 ⟨1, 10, 25, 200, true, none, false, none, [⟨some 2, 25⟩]⟩
        3 20).isSome = true ∧
    validateBid 100 ⟨1, 10, 25, 200, true, none, false, none, [⟨some 2, 25⟩]⟩ 20 =
      some BidOutcome.belowCurrentPrice ∧
    (commitTx 100 ⟨1, 10, 25, 200, true, none, false, none, [⟨some 2, 25⟩]⟩
        3 20).map Item.current_price = some 20 := by
  refine ⟨by norm_num [commitTx, highestBid], by norm_num [validateBid],
    by norm_num [commitTx, highestBid]⟩

/-- Claim C1 (amended): inside the transaction only the positive-amount field
validator and the maximum-jump rule are re-executed (via `Bid.full_clean` /
`Bid.clean`) against the freshly read bids; the listing's active flag, end
date and current price are not re-read or re-validated — the commit outcome is
invariant under arbitrary changes to those fields, and the transaction relies
on the pre-transaction fast-path for those rules. -/
theorem commit_revalidates_only_max_jump (now : Int) (item : Item) (user : Nat)
    (amount : ℚ) (act : Bool) (ed : Int) (cp : ℚ) :
    ((commitTx now { item with is_active := act, end_date := ed, current_price := cp }
        user amount).isSome = (commitTx now item user amount).isSome) ∧
    (∀ hb, highestBid item.bids = some hb → hb.amount * 2 < amount →
      commitTx now item user amount = none) ∧
    (amount < mkRat 1 100 → commitTx now item user amount = none) := by
  refine ⟨?_, ?_, ?_⟩
  · unfold commitTx
    by_cases hsmall : amount < mkRat 1 100
    · rw [if_pos hsmall, if_pos hsmall]
    · rw [if_neg hsmall, if_neg hsmall]
      cases h : highestBid item.bids with
      | none => simp [h]
      | some hb => by_cases hj : hb.amount * 2 < amount <;> simp [h, hj]
  · intro hb hhb hj
    unfold commitTx
    by_cases hsmall : amount < mkRat 1 100
    · rw [if_pos hsmall]
    · rw [if_neg hsmall]
      simp [hhb, hj]
  · intro hsmall
    unfold commitTx
    rw [if_pos hsmall]

/-- Witness for `commit_revalidates_only_max_jump`: with a fresh highest bid
of 25 a commit of 60 (above the doubled cap 50) is rolled back. -/
theorem commit_revalidates_only_max_jump_witness :
    commitTx 100 ⟨1, 10, 25, 200, true, none, false, none, [⟨some 2, 25⟩]⟩ 3 60 = none :=
  (commit_revalidates_only_max_jump 100
      ⟨1, 10, 25, 200, true, none, false, none, [⟨some 2, 25⟩]⟩ 3 60 true 200 25).2.1
    ⟨some 2, 25⟩ (by decide) (by norm_num)

/-- Counterexample to claim C3: a request whose listing is inactive and
already ended and whose amount is non-positive (0) is rejected with the
amount reason (`invalidAmount`), not the listing-state reason — the code
checks the amount before it even looks the listing up. -/
theorem reason_order_counterexample :
    ((place_bid 100 ⟨[⟨1, 10, 10, 0, false, none, false, none, []⟩], []⟩
        ⟨7, 9, 1, some 0⟩).1 = BidOutcome.invalidAmount) ∧
    (0 : ℚ) ≤ 0 ∧
    (⟨1, 10, 10, 0, false, none, false, none, []⟩ : Item).is_active = false ∧
    (⟨1, 10, 10, 0, false, none, false, none, []⟩ : Item).end_date < 100 ∧
    BidOutcome.invalidAmount ≠ BidOutcome.notAvailable := by
  refine ⟨by decide, by decide, by decide, by decide, by decide⟩

/-- Claim C3 (amended): after the rate-limit gate, the rejection reasons are
evaluated in the order AmountNotPositive (non-positive or unparsable amount),
unknown listing, ListingInactive-or-Closed (one combined check), then
BelowCurrentPrice, BelowMinimumIncrement and ExceedsMaximumJump; in
particular a request whose listing is inactive or closed and whose amount is
non-positive or unparsable is rejected with the amount reason. -/
theorem reason_order_amended (now : Int) (s : AuctionState) (r : BidRequest)
    (hrl : check_bid_rate_limit now s.attempts (some r.user) r.ip = false) :
    ((r.amount = none → (place_bid now s r).1 = BidOutcome.invalidAmount) ∧
     (∀ a, r.amount = some a → a ≤ 0 →
        (place_bid now s r).1 = BidOutcome.invalidAmount) ∧
     (∀ a, r.amount = some a → 0 < a →
        s.items.find? (fun i => i.id == r.itemId) = none →
        (place_bid now s r).1 = BidOutcome.itemNotFound) ∧
     (∀ a item, r.amount = some a → 0 < a →
        s.items.find? (fun i => i.id == r.itemId) = some item →
        (¬ item.is_active = true ∨ item.end_date < now) →
        (place_bid now s r).1 = BidOutcome.notAvailable) ∧
     (∀ a item, r.amount = some a → 0 < a →
        s.items.find? (fun i => i.id == r.itemId) = some item →
        item.is_active = true → ¬ item.end_date < now → a ≤ item.current_price →
        (place_bid now s r).1 = BidOutcome.belowCurrentPrice) ∧
     (∀ a item, r.amount = some a → 0 < a →
        s.items.find? (fun i => i.id == r.itemId) = some item →
        item.is_active = true → ¬ item.end_date < now →
        item.current_price < a → a < item.current_price + 1 →
        (place_bid now s r).1 = BidOutcome.belowMinIncrement) ∧
     (∀ a item hb, r.amount = some a → 0 < a →
        s.items.find? (fun i => i.id == r.itemId) = some item →
        item.is_active = true → ¬ item.end_date < now →
        item.current_price + 1 ≤ a → highestBid item.bids = some hb →
        hb.amount * 2 < a →
        (place_bid now s r).1 = BidOutcome.exceedsMaxJump)) := by
  refine ⟨?_, ?_, ?_, ?_, ?_, ?_, ?_⟩
  · intro ha
    unfold place_bid
    rw [hrl, ha]
    rfl
  · intro a ha hle
    unfold place_bid
    rw [hrl, ha]
    simp [hle]
  · intro a ha hpos hfind
    unfold place_bid
    rw [hrl, ha, hfind]
    simp [not_le.mpr hpos]
  · intro a item ha hpos hfind hstate
    rw [place_bid_found now s r a item hrl ha hpos hfind]
    unfold validateBid
    rw [if_pos hstate]
  · intro a item ha hpos hfind hact hend hle
    rw [place_bid_found now s r a item hrl ha hpos hfind]
    unfold validateBid
    rw [if_neg (by simp [hact, hend]), if_pos hle]
  · intro a item ha hpos hfind hact hend hgt hlt
    rw [place_bid_found now s r a item hrl ha hpos hfind]
    unfold validateBid
    rw [if_neg (by simp [hact, hend]), if_neg (not_le.mpr hgt), if_pos hlt]
  · intro a item hb ha hpos hfind hact hend hinc hhb hjump
    rw [place_bid_found now s r a item hrl ha hpos hfind]
    unfold validateBid
    rw [if_neg (by simp [hact, hend]), if_neg (by linarith), if_neg (not_lt.mpr hinc), hhb]
    simp [hjump]

/-- Witness for `reason_order_amended`: an inactive listing with a positive
amount is rejected with the listing-state reason. -/
theorem reason_order_amended_witness :
    (place_bid 100 ⟨[⟨1, 10, 10, 0, false, none, false, none, []⟩], []⟩
        ⟨7, 9, 1, some 5⟩).1 = BidOutcome.notAvailable := by
  refine (reason_order_amended 100 ⟨[⟨1, 10, 10, 0, false, none, false, none, []⟩], []⟩
      ⟨7, 9, 1, some 5⟩ (by decide)).2.2.2.1 5
    ⟨1, 10, 10, 0, false, none, false, none, []⟩ rfl (by norm_num) (by decide) ?_
  left
  decide

/-- Counterexample to claim C4: a request with a non-positive amount, and a
request for an unknown listing, both return without writing any `BidAttempt`
row — such failed attempts are not counted in the rate window. -/
theorem attempt_logging_counterexample :
    ((place_bid 100 ⟨[⟨1, 10, 10, 20, true, none, false, none, []⟩], []⟩
        ⟨7, 9, 1, some 0⟩).1 = BidOutcome.invalidAmount) ∧
    ((place_bid 100 ⟨[⟨1, 10, 10, 20, true, none, false, none, []⟩], []⟩
        ⟨7, 9, 1, some 0⟩).2.attempts = []) ∧
    ((place_bid 100 ⟨[⟨1, 10, 10, 20, true, none, false, none, []⟩], []⟩
        ⟨7, 9, 2, some 5⟩).1 = BidOutcome.itemNotFound) ∧
    ((place_bid 100 ⟨[⟨1, 10, 10, 20, true, none, false, none, []⟩], []⟩
        ⟨7, 9, 2, some 5⟩).2.attempts = []) := by
  refine ⟨by decide, by decide, by decide, by decide⟩

/-- Claim C4 (amended): the `success=false` placeholder `BidAttempt` row is
written only after the rate-limit gate, the amount parse/positivity check and
the listing lookup; requests failing those early checks leave the attempt
table unchanged, while every request that reaches the listing-state check
adds exactly one attempt row (whatever the later verdict). -/
theorem attempt_logging_amended (now : Int) (s : AuctionState) (r : BidRequest)
    (hrl : check_bid_rate_limit now s.attempts (some r.user) r.ip = false) :
    ((r.amount = none → (place_bid now s r).2.attempts = s.attempts) ∧
     (∀ a, r.amount = some a → a ≤ 0 →
        (place_bid now s r).2.attempts = s.attempts) ∧
     (∀ a, r.amount = some a → 0 < a →
        s.items.find? (fun i => i.id == r.itemId) = none →
        (place_bid now s r).2.attempts = s.attempts) ∧
     (∀ a item, r.amount = some a → 0 < a →
        s.items.find? (fun i => i.id == r.itemId) = some item →
        (place_bid now s r).2.attempts.length = s.attempts.length + 1)) := by
  refine ⟨?_, ?_, ?_, ?_⟩
  · intro ha
    unfold place_bid
    rw [hrl, ha]
    rfl
  · intro a ha hle
    unfold place_bid
    rw [hrl, ha]
    simp [hle]
  · intro a ha hpos hfind
    unfold place_bid
    rw [hrl, ha, hfind]
    simp [not_le.mpr hpos]
  · intro a item ha hpos hfind
    rw [place_bid_found now s r a item hrl ha hpos hfind]
    cases hv : validateBid now item a with
    | some v => simp
    | none =>
        cases hc : commitTx now item r.user a with
        | some item2 => simp [markLastSuccess_length]
        | none => simp

/-- Witness for `attempt_logging_amended`: a request that reaches the
listing-state check adds exactly one attempt row. -/
theorem attempt_logging_amended_witness :
    (place_bid 100 ⟨[⟨1, 10, 10, 0, false, none, false, none, []⟩], []⟩
        ⟨7, 9, 1, some 5⟩).2.attempts.length = 0 + 1 :=
  (attempt_logging_amended 100 ⟨[⟨1, 10, 10, 0, false, none, false, none, []⟩], []⟩
      ⟨7, 9, 1, some 5⟩ (by decide)).2.2.2 5
    ⟨1, 10, 10, 0, false, none, false, none, []⟩ rfl (by norm_num) (by decide)

/-- Counterexample to claim C5: an authenticated user (id 1) with ten recent
attempts recorded from origin address 0 makes a request from origin address 1.
The code allows the request (it keys the count on the (user, ip) pair, and no
row matches ip 1), while the claimed rule — actor key is the bidder identity
alone when authenticated — would deny it. -/
theorem rate_limit_key_counterexample :
    check_bid_rate_limit 100 (List.replicate 10 ⟨1, 0, 100, false⟩) (some 1) 1 = false ∧
    check_bid_rate_limit_claimed 100 (List.replicate 10 ⟨1, 0, 100, false⟩) (some 1) 1 = true := by
  constructor <;> decide

/-- Claim C5 (amended): the rate limiter denies exactly when at least 10
`BidAttempt` rows lie in the trailing 60-second window for the actor key,
counting successes and failures alike, where the actor key is the
(bidder identity, origin address) pair when authenticated and the origin
address alone otherwise. -/
theorem rate_limit_amended (now : Int) (attempts : List BidAttempt)
    (user : Option Nat) (ip : Nat) :
    check_bid_rate_limit now attempts user ip =
      check_bid_rate_limit_amended now attempts user ip := by
  unfold check_bid_rate_limit check_bid_rate_limit_amended
  have hf : (attempts.filter fun a =>
      a.ip == ip && decide (now - 60 ≤ a.timestamp) &&
        (match user with
         | some u => a.user == u
         | none => true)) =
      (attempts.filter fun a =>
        (match user with
         | some u => a.user == u && a.ip == ip
         | none => a.ip == ip) && decide (now - 60 ≤ a.timestamp)) := by
    apply List.filter_congr
    intro a _
    cases user with
    | none =>
        cases h1 : a.ip == ip <;> cases h3 : decide (now - 60 ≤ a.timestamp) <;>
          simp [h1, h3]
    | some u =>
        cases h1 : a.ip == ip <;> cases h2 : a.user == u <;>
          cases h3 : decide (now - 60 ≤ a.timestamp) <;> simp [h1, h2, h3]
  rw [hf]

/-- Claim C9: `Item.save` never persists a winner on a listing whose
`end_date` is still in the future: a saved row has a (non-null) winner only
when its end date has passed, and saving a row whose winner is set while the
end date lies in the future stores it with winner null, `winner_notified`
false and `winner_contacted` null. -/
theorem save_winner_only_after_close (now : Int) (i : Item) :
    ((Item.save now i).winner.isSome → i.end_date ≤ now) ∧
    (i.winner.isSome → now < i.end_date →
      (Item.save now i).winner = none ∧
      (Item.save now i).winner_notified = false ∧
      (Item.save now i).winner_contacted = none) := by
  unfold Item.save
  constructor
  · intro hw
    by_contra hlt
    simp only [not_le] at hlt
    by_cases h0 : i.current_price = 0 <;>
      by_cases hwi : i.winner.isSome <;>
      simp [h0, hwi, hlt] at hw
  · intro hwi hlt
    by_cases h0 : i.current_price = 0 <;> simp [h0, hwi, hlt]

/-- Witness for `save_winner_only_after_close` at a concrete listing whose
winner is set while its end date is in the future: the save clears it. -/
theorem save_winner_only_after_close_witness :
    (Item.save 5 ⟨1, 10, 20, 7, true, some 3, true, some 2, []⟩).winner = none := by
  have h := (save_winner_only_after_close 5 ⟨1, 10, 20, 7, true, some 3, true, some 2, []⟩).2
  exact (h (by decide) (by decide)).1

/-- The snapshot validation accepts an active, unended listing when the
amount meets the minimum increment and does not exceed the doubled highest
bid (or no prior bid exists). -/
theorem validateBid_accepts (now : Int) (item : Item) (a : ℚ)
    (hact : item.is_active = true) (hend : ¬ item.end_date < now)
    (hinc : item.current_price + 1 ≤ a)
    (hjump : highestBid item.bids = none ∨
      ∃ hb, highestBid item.bids = some hb ∧ ¬ hb.amount * 2 < a) :
    validateBid now item a = none := by
  unfold validateBid
  rw [if_neg (by simp [hact, hend]), if_neg (not_le.mpr (by linarith)),
    if_neg (not_lt.mpr hinc)]
  rcases hjump with h | ⟨hb, h1, h2⟩
  · simp [h]
  · simp [h1, h2]

/-- The transaction commits whenever the amount passes the field validator
and the maximum-jump re-check, inserting the bid row and setting
`current_price` to the amount. -/
theorem commitTx_some_of (now : Int) (item : Item) (user : Nat) (a : ℚ)
    (hsmall : ¬ a < mkRat 1 100)
    (hjump : highestBid item.bids = none ∨
      ∃ hb, highestBid item.bids = some hb ∧ ¬ hb.amount * 2 < a) :
    commitTx now item user a =
      some { item with current_price := a, bids := item.bids ++ [⟨some user, a⟩] } := by
  unfold commitTx
  rw [if_neg hsmall]
  rcases hjump with h | ⟨hb, h1, h2⟩
  · simp [h]
  · simp [h1, h2]

/-- Claim C6: for an active listing whose end date has not passed (and a
positive, parsed amount), the price rules behave exactly as specified: an
amount at most `current_price` is rejected as below the current price; an
amount above it but under `current_price + 1` is rejected as below the
minimum increment; an amount above twice the highest prior bid is rejected as
exceeding the maximum jump; and an amount from `current_price + 1` up to the
cap (or with no prior bid, any amount from `current_price + 1`) passes all
three checks and the bid is created. -/
theorem bid_price_rules (now : Int) (s : AuctionState) (r : BidRequest)
    (a : ℚ) (item : Item)
    (hrl : check_bid_rate_limit now s.attempts (some r.user) r.ip = false)
    (ha : r.amount = some a) (hpos : 0 < a)
    (hfind : s.items.find? (fun i => i.id == r.itemId) = some item)
    (hact : item.is_active = true) (hend : ¬ item.end_date < now) :
    ((a ≤ item.current_price →
        (place_bid now s r).1 = BidOutcome.belowCurrentPrice) ∧
     (item.current_price < a → a < item.current_price + 1 →
        (place_bid now s r).1 = BidOutcome.belowMinIncrement) ∧
     (∀ hb, highestBid item.bids = some hb → item.current_price + 1 ≤ a →
        hb.amount * 2 < a →
        (place_bid now s r).1 = BidOutcome.exceedsMaxJump) ∧
     (0 ≤ item.current_price → item.current_price + 1 ≤ a →
        (highestBid item.bids = none ∨
          ∃ hb, highestBid item.bids = some hb ∧ ¬ hb.amount * 2 < a) →
        (place_bid now s r).1 = BidOutcome.created a)) := by
  refine ⟨?_, ?_, ?_, ?_⟩
  · intro hle
    rw [place_bid_found now s r a item hrl ha hpos hfind]
    unfold validateBid
    rw [if_neg (by simp [hact, hend]), if_pos hle]
  · intro hgt hlt
    rw [place_bid_found now s r a item hrl ha hpos hfind]
    unfold validateBid
    rw [if_neg (by simp [hact, hend]), if_neg (not_le.mpr hgt), if_pos hlt]
  · intro hb hhb hinc hjump
    rw [place_bid_found now s r a item hrl ha hpos hfind]
    unfold validateBid
    rw [if_neg (by simp [hact, hend]), if_neg (not_le.mpr (by linarith)),
      if_neg (not_lt.mpr hinc), hhb]
    simp [hjump]
  · intro hcp hinc hjump
    rw [place_bid_found now s r a item hrl ha hpos hfind]
    rw [validateBid_accepts now item a hact hend hinc hjump]
    rw [commitTx_some_of now item r.user a
      (by rw [show mkRat 1 100 = 1 / 100 by norm_num [mkRat]]; push_neg; linarith) hjump]

/-- Witness for `bid_price_rules`: on a fresh listing (current price 10, no
bids) a bid of 12 is accepted. -/
theorem bid_price_rules_witness :
    (place_bid 100 ⟨[⟨1, 10, 10, 200, true, none, false, none, []⟩], []⟩
        ⟨7, 9, 1, some 12⟩).1 = BidOutcome.created 12 :=
  (bid_price_rules 100 ⟨[⟨1, 10, 10, 200, true, none, false, none, []⟩], []⟩
      ⟨7, 9, 1, some 12⟩ 12 ⟨1, 10, 10, 200, true, none, false, none, []⟩
      (by decide) rfl (by norm_num) (by decide) rfl (by decide)).2.2.2
    (by norm_num) (by norm_num) (Or.inl rfl)

/-- A denied rate limit short-circuits `place_bid`. -/
theorem place_bid_rate_limited (now : Int) (s : AuctionState) (r : BidRequest)
    (h : check_bid_rate_limit now s.attempts (some r.user) r.ip = true) :
    place_bid now s r = (BidOutcome.tooManyAttempts, s) := by
  unfold place_bid
  simp [h]

/-- An unparsable amount short-circuits `place_bid`. -/
theorem place_bid_amount_unparsable (now : Int) (s : AuctionState) (r : BidRequest)
    (hrl : check_bid_rate_limit now s.attempts (some r.user) r.ip = false)
    (ha : r.amount = none) :
    place_bid now s r = (BidOutcome.invalidAmount, s) := by
  unfold place_bid
  rw [hrl, ha]
  rfl

/-- A non-positive amount short-circuits `place_bid`. -/
theorem place_bid_amount_nonpos (now : Int) (s : AuctionState) (r : BidRequest)
    (a : ℚ) (hrl : check_bid_rate_limit now s.attempts (some r.user) r.ip = false)
    (ha : r.amount = some a) (hle : a ≤ 0) :
    place_bid now s r = (BidOutcome.invalidAmount, s) := by
  unfold place_bid
  rw [hrl, ha]
  simp [hle]

/-- An unknown listing short-circuits `place_bid`. -/
theorem place_bid_not_found (now : Int) (s : AuctionState) (r : BidRequest)
    (a : ℚ) (hrl : check_bid_rate_limit now s.attempts (some r.user) r.ip = false)
    (ha : r.amount = some a) (hpos : 0 < a)
    (hfind : s.items.find? (fun i => i.id == r.itemId) = none) :
    place_bid now s r = (BidOutcome.itemNotFound, s) := by
  unfold place_bid
  rw [hrl, ha, hfind]
  simp [not_le.mpr hpos]

/-- The snapshot validation never yields a `created` outcome. -/
theorem validateBid_isCreated_none (now : Int) (item : Item) (a : ℚ)
    (v : BidOutcome) (hv : validateBid now item a = some v) :
    isCreated v = none := by
  unfold validateBid at hv
  split_ifs at hv with h1 h2 h3
  · simp only [Option.some.injEq] at hv
    subst hv
    rfl
  · simp only [Option.some.injEq] at hv
    subst hv
    rfl
  · simp only [Option.some.injEq] at hv
    subst hv
    rfl
  · cases hh : highestBid item.bids with
    | none =>
        simp only [hh] at hv
        exact Option.noConfusion hv
    | some hb =>
        simp only [hh] at hv
        by_cases hj : hb.amount * 2 < a
        · rw [if_pos hj] at hv
          simp only [Option.some.injEq] at hv
          subst hv
          rfl
        · rw [if_neg hj] at hv
          exact Option.noConfusion hv

/-- If the snapshot validation passes, the amount meets the minimum
increment over the snapshot current price. -/
theorem validateBid_none_min (now : Int) (item : Item) (a : ℚ)
    (hv : validateBid now item a = none) :
    item.current_price + 1 ≤ a := by
  unfold validateBid at hv
  split_ifs at hv with h1 h2 h3
  exact not_lt.mp h3

/-- A successful commit has exactly the shape: bid row appended,
`current_price` set to the amount. -/
theorem commitTx_some_shape (now : Int) (item : Item) (user : Nat) (a : ℚ)
    (item2 : Item) (hc : commitTx now item user a = some item2) :
    item2 = { item with current_price := a, bids := item.bids ++ [⟨some user, a⟩] } := by
  unfold commitTx at hc
  by_cases h1 : a < mkRat 1 100
  · rw [if_pos h1] at hc
    exact Option.noConfusion hc
  · rw [if_neg h1] at hc
    cases hh : highestBid item.bids with
    | none =>
        simp only [hh] at hc
        exact (Option.some.inj hc).symm
    | some hb =>
        simp only [hh] at hc
        by_cases hj : hb.amount * 2 < a
        · rw [if_pos hj] at hc
          exact Option.noConfusion hc
        · rw [if_neg hj] at hc
          exact (Option.some.inj hc).symm

/-- Small-step behaviour of `place_bid` on a single-listing store: either the
bid is created — with an amount at least `current_price + 1` and the store
updated to the committed listing — or the outcome is not `created` and the
listing is unchanged. -/
theorem place_bid_single_step (now : Int) (s : AuctionState) (r : BidRequest)
    (i : Item) (hs : s.items = [i]) :
    (∃ a, (place_bid now s r).1 = BidOutcome.created a ∧
       i.current_price + 1 ≤ a ∧
       (place_bid now s r).2.items =
         [{ i with current_price := a, bids := i.bids ++ [⟨some r.user, a⟩] }]) ∨
    (isCreated (place_bid now s r).1 = none ∧ (place_bid now s r).2.items = [i]) := by
  cases hrl : check_bid_rate_limit now s.attempts (some r.user) r.ip with
  | true =>
      right
      rw [place_bid_rate_limited now s r hrl]
      exact ⟨rfl, hs⟩
  | false =>
      cases ha : r.amount with
      | none =>
          right
          rw [place_bid_amount_unparsable now s r hrl ha]
          exact ⟨rfl, hs⟩
      | some a =>
          rcases le_or_lt a 0 with hle | hpos
          · right
            rw [place_bid_amount_nonpos now s r a hrl ha hle]
            exact ⟨rfl, hs⟩
          · cases hfind : s.items.find? (fun i2 => i2.id == r.itemId) with
            | none =>
                right
                rw [place_bid_not_found now s r a hrl ha hpos hfind]
                exact ⟨rfl, hs⟩
            | some item =>
                have hitem : item = i := by
                  rw [hs] at hfind
                  cases hid : (i.id == r.itemId)
                  · simp [List.find?, hid] at hfind
                  · simp [List.find?, hid] at hfind
                    exact hfind.symm
                subst hitem
                rw [place_bid_found now s r a item hrl ha hpos hfind]
                cases hv : validateBid now item a with
                | some v =>
                    right
                    exact ⟨validateBid_isCreated_none now item a v hv, hs⟩
                | none =>
                    cases hc : commitTx now item r.user a with
                    | none => right; exact ⟨rfl, hs⟩
                    | some item2 =>
                        left
                        refine ⟨a, rfl, validateBid_none_min now item a hv, ?_⟩
                        rw [commitTx_some_shape now item r.user a item2 hc, hs]
                        simp
/-- In a strictly increasing chain `x :: l`, the last element dominates `x`. -/
theorem getLastD_ge_head_of_chain :
    ∀ (l : List ℚ) (x : ℚ), List.Chain' (fun p q => p < q) (x :: l) →
      x ≤ l.getLastD x
  | [], _, _ => le_refl _
  | a :: l, x, h => by
      rw [List.chain'_cons] at h
      rw [List.getLastD_cons]
      exact le_trans (le_of_lt h.1) (getLastD_ge_head_of_chain l a h.2)

/-- In a strictly increasing chain `x :: l`, folding `max` over `l` from `x`
yields the last element. -/
theorem foldl_max_of_chain :
    ∀ (l : List ℚ) (x : ℚ), List.Chain' (fun p q => p < q) (x :: l) →
      l.foldl max x = l.getLastD x
  | [], _, _ => rfl
  | a :: l, x, h => by
      rw [List.chain'_cons] at h
      rw [List.foldl_cons, max_eq_right (le_of_lt h.1), List.getLastD_cons]
      exact foldl_max_of_chain l a h.2

/-- Membership: `getLastD` of a non-empty list is a member. -/
theorem getLastD_mem_of_ne_nil :
    ∀ (l : List ℚ) (x : ℚ), l ≠ [] → l.getLastD x ∈ l
  | [], _, h => absurd rfl h
  | a :: l, x, _ => by
      rw [List.getLastD_cons]
      cases l with
      | nil => simp
      | cons b l2 =>
          exact List.mem_cons_of_mem a (getLastD_mem_of_ne_nil (b :: l2) a (by simp))

/-- Invariant of `runBidsTrace` on a single-listing store: the snapshot
current price followed by the accepted amounts forms a strictly increasing
chain, and the final current price is the last accepted amount (or the
initial price if none was accepted). -/
theorem runBidsTrace_invariant (now : Int) (rs : List BidRequest) :
    ∀ (s : AuctionState) (i : Item), s.items = [i] →
      List.Chain' (fun x y => x < y)
        (i.current_price :: (runBidsTrace now s rs).2) ∧
      ∃ j, (runBidsTrace now s rs).1.items = [j] ∧
        j.current_price = (runBidsTrace now s rs).2.getLastD i.current_price := by
  induction rs with
  | nil =>
      intro s i hs
      exact ⟨List.chain'_singleton _, i, hs, rfl⟩
  | cons r rs ih =>
      intro s i hs
      rcases place_bid_single_step now s r i hs with
        ⟨a, hout, hbound, hitems⟩ | ⟨hnc, hitems⟩
      · have hic : isCreated (place_bid now s r).1 = some a := by
          rw [hout]
          rfl
        have hIH := ih (place_bid now s r).2
          { i with current_price := a, bids := i.bids ++ [⟨some r.user, a⟩] } hitems
        simp only [runBidsTrace, hic]
        refine ⟨?_, ?_⟩
        · rw [List.chain'_cons]
          exact ⟨by linarith, hIH.1⟩
        · obtain ⟨j, hj1, hj2⟩ := hIH.2
          refine ⟨j, hj1, ?_⟩
          rw [List.getLastD_cons]
          exact hj2
      · have hIH := ih (place_bid now s r).2 i hitems
        simp only [runBidsTrace, hnc]
        exact hIH

/-- Counterexample to claim C7 as stated for concurrent submissions: two
workers both read the listing at price 10 with no bids.  Worker 1's request
(amount 25) validates and commits first, raising the price to 25.  Worker
2's request (amount 20) already passed the fast-path validation against its
stale snapshot, and its transaction — which re-checks only `Bid.full_clean`,
not the listing state — then commits against the fresh state: both bids are
accepted, the commit-order amounts 25, 20 do not form a strictly increasing
sequence, the second accepted amount does not exceed the current price (25)
at the moment of its acceptance, and the final current price 20 lies below
the maximum accepted amount 25. -/
theorem concurrent_monotonicity_counterexample :
    placeBidPhased 100 ⟨1, 10, 10, 200, true, none, false, none, []⟩
        ⟨1, 10, 10, 200, true, none, false, none, []⟩ 1 25 =
      some ⟨1, 10, 25, 200, true, none, false, none, [⟨some 1, 25⟩]⟩ ∧
    placeBidPhased 100 ⟨1, 10, 10, 200, true, none, false, none, []⟩
        ⟨1, 10, 25, 200, true, none, false, none, [⟨some 1, 25⟩]⟩ 2 20 =
      some ⟨1, 10, 20, 200, true, none, false, none, [⟨some 1, 25⟩, ⟨some 2, 20⟩]⟩ ∧
    ¬ List.Chain' (fun x y => x < y) [(25 : ℚ), 20] ∧
    (20 : ℚ) < 25 := by
  have hv1 : validateBid 100 ⟨1, 10, 10, 200, true, none, false, none, []⟩ 25 = none :=
    validateBid_accepts 100 _ 25 rfl (by norm_num) (by norm_num) (Or.inl rfl)
  have hv2 : validateBid 100 ⟨1, 10, 10, 200, true, none, false, none, []⟩ 20 = none :=
    validateBid_accepts 100 _ 20 rfl (by norm_num) (by norm_num) (Or.inl rfl)
  refine ⟨?_, ?_, ?_, by norm_num⟩
  · unfold placeBidPhased
    rw [hv1, commitTx_some_of 100 ⟨1, 10, 10, 200, true, none, false, none, []⟩
      1 25 (by decide) (Or.inl rfl)]
    rfl
  · unfold placeBidPhased
    rw [hv2, commitTx_some_of 100
      ⟨1, 10, 25, 200, true, none, false, none, [⟨some 1, 25⟩]⟩ 2 20 (by decide)
      (Or.inr ⟨⟨some 1, 25⟩, rfl, by norm_num⟩)]
    rfl
  · rw [List.chain'_cons]
    push_neg
    intro h
    exact absurd h (by norm_num)

/-- Claim C7 (amended): when bid requests are serialized — each request's
snapshot read, validation and transaction complete before the next request
begins, as modelled by `place_bid` where the transaction sees the same state
as the fast path — every accepted bid's amount strictly exceeds the
listing's current price at the moment of acceptance and becomes the new
current price: the accepted amounts (with the initial price prepended) form
a strictly increasing chain in commit order, and the final current price is
the last accepted amount, equals the running maximum, and is itself one of
the accepted amounts when any bid was accepted.  Under concurrent
interleavings the code does not guarantee this: a request whose transaction
runs after another worker's commit re-validates only the maximum-jump rule,
so it can commit below the fresh current price. -/
theorem accepted_bids_monotone (now : Int) (i : Item) (atts : List BidAttempt)
    (rs : List BidRequest) :
    List.Chain' (fun x y => x < y)
      (i.current_price :: (runBidsTrace now ⟨[i], atts⟩ rs).2) ∧
    ∃ j, (runBidsTrace now ⟨[i], atts⟩ rs).1.items = [j] ∧
      j.current_price = (runBidsTrace now ⟨[i], atts⟩ rs).2.getLastD i.current_price ∧
      j.current_price = (runBidsTrace now ⟨[i], atts⟩ rs).2.foldl max i.current_price ∧
      ((runBidsTrace now ⟨[i], atts⟩ rs).2 ≠ [] →
        j.current_price ∈ (runBidsTrace now ⟨[i], atts⟩ rs).2) := by
  obtain ⟨hchain, j, hj1, hj2⟩ :=
    runBidsTrace_invariant now rs ⟨[i], atts⟩ i rfl
  refine ⟨hchain, j, hj1, hj2, ?_, ?_⟩
  · rw [hj2, foldl_max_of_chain _ _ hchain]
  · intro hne
    rw [hj2]
    exact getLastD_mem_of_ne_nil _ _ hne

/-- The scan predicate of `update_auction_winners` (`Command.handle`):
`end_date__lt=now, winner__isnull=True, is_active=True`. -/
def eligible (now : Int) (i : Item) : Bool :=
  decide (i.end_date < now) && i.winner.isNone && i.is_active

/-- One loop iteration of `Command.handle` on an eligible listing: if the
listing has no bids only a log line is written; otherwise the highest bid's
user becomes the winner and the row is saved (`Item.save`), after which the
success message dereferences `auction.winner.email` — when the saved winner
is null (anonymised highest bidder) this raises an `AttributeError`, modelled
by the `Bool` flag being `true`.  The save has already been committed when
the error is raised. -/
def resolveStep (now : Int) (i : Item) : Item × Bool :=
  if i.bids.isEmpty then (i, false)
  else
    match highestBid i.bids with
    | none => (i, false)
    | some hb =>
        ((Item.save now { i with winner := hb.bidder }),
          (Item.save now { i with winner := hb.bidder }).winner.isNone)

/-- The stdout line `Winner set for auction #id: email` as an assignment
record (listing id, winner id); nothing is recorded when the saved winner is
null. -/
def stepAssigns (origId : Nat) (i2 : Item) : List (Nat × Nat) :=
  match i2.winner with
  | some w => [(origId, w)]
  | none => []

/-- Embedding of `Command.handle` of `update_auction_winners`: iterate over the store in
order, processing each listing matching the scan predicate; an error
(`AttributeError` on a null winner, see `resolveStep`) propagates out of the
loop, aborting the run — the already-saved row is kept but the remaining
listings are not visited.  Returns the resulting store, the assignment
records, and whether the run aborted with an error. -/
def resolveList (now : Int) : List Item → List Item × List (Nat × Nat) × Bool
  | [] => ([], [], false)
  | a :: rest =>
    if eligible now a then
      if (resolveStep now a).2 then
        ((resolveStep now a).1 :: rest, stepAssigns a.id (resolveStep now a).1, true)
      else
        ((resolveStep now a).1 :: (resolveList now rest).1,
          stepAssigns a.id (resolveStep now a).1 ++ (resolveList now rest).2.1,
          (resolveList now rest).2.2)
    else
      (a :: (resolveList now rest).1, (resolveList now rest).2.1,
        (resolveList now rest).2.2)

/-- Iterate the resolver (the periodic command) `n` times over a store. -/
def resolveIter (now : Int) : Nat → List Item → List Item
  | 0, s => s
  | n + 1, s => resolveIter now n (resolveList now s).1

/-- Cons unfolding of `resolveList`. -/
theorem resolveList_cons (now : Int) (a : Item) (rest : List Item) :
    resolveList now (a :: rest) =
      if eligible now a then
        if (resolveStep now a).2 then
          ((resolveStep now a).1 :: rest, stepAssigns a.id (resolveStep now a).1, true)
        else
          ((resolveStep now a).1 :: (resolveList now rest).1,
            stepAssigns a.id (resolveStep now a).1 ++ (resolveList now rest).2.1,
            (resolveList now rest).2.2)
      else
        (a :: (resolveList now rest).1, (resolveList now rest).2.1,
          (resolveList now rest).2.2) := by
  rfl

/-- Saving does not change the id. -/
theorem save_id (now : Int) (i : Item) : (Item.save now i).id = i.id := by
  simp only [Item.save]
  split <;> split <;> rfl

/-- Saving does not change the bids. -/
theorem save_bids (now : Int) (i : Item) : (Item.save now i).bids = i.bids := by
  simp only [Item.save]
  split <;> split <;> rfl

/-- Saving does not change the end date. -/
theorem save_end_date (now : Int) (i : Item) :
    (Item.save now i).end_date = i.end_date := by
  simp only [Item.save]
  split <;> split <;> rfl

/-- Saving does not change the active flag. -/
theorem save_is_active (now : Int) (i : Item) :
    (Item.save now i).is_active = i.is_active := by
  simp only [Item.save]
  split <;> split <;> rfl

/-- When the end date has not strictly passed `now` the save keeps the
winner. -/
theorem save_winner_stable (now : Int) (i : Item) (h : ¬ now < i.end_date) :
    (Item.save now i).winner = i.winner := by
  by_cases h0 : i.current_price = 0 <;> simp [Item.save, h0, h]

/-- Saving twice equals saving once. -/
theorem save_save (now : Int) (i : Item) :
    Item.save now (Item.save now i) = Item.save now i := by
  unfold Item.save
  by_cases h0 : i.current_price = 0 <;>
    by_cases hw : i.winner.isSome = true ∧ now < i.end_date <;>
    simp [h0, hw]

/-- A nonempty bid list has a highest bid. -/
theorem highestBid_isSome (l : List Bid) (h : l ≠ []) :
    (highestBid l).isSome = true := by
  cases l with
  | nil => exact absurd rfl h
  | cons b bs =>
      unfold highestBid
      cases hh : highestBid bs with
      | none => simp [hh]
      | some h2 =>
          simp only [hh]
          split <;> rfl

/-- A list with a highest bid is nonempty. -/
theorem highestBid_ne_nil (l : List Bid) (hb : Bid)
    (h : highestBid l = some hb) : l.isEmpty = false := by
  cases l with
  | nil => exact Option.noConfusion h
  | cons b bs => rfl

/-- Processing a listing does not change its id. -/
theorem resolveStep_id (now : Int) (i : Item) :
    (resolveStep now i).1.id = i.id := by
  unfold resolveStep
  split
  · rfl
  · cases hh : highestBid i.bids with
    | none => rfl
    | some hb => simp [save_id]

/-- Processing a listing does not change its bids. -/
theorem resolveStep_bids (now : Int) (i : Item) :
    (resolveStep now i).1.bids = i.bids := by
  unfold resolveStep
  split
  · rfl
  · cases hh : highestBid i.bids with
    | none => rfl
    | some hb => simp [save_bids]

/-- Processing a listing does not change its end date. -/
theorem resolveStep_end_date (now : Int) (i : Item) :
    (resolveStep now i).1.end_date = i.end_date := by
  unfold resolveStep
  split
  · rfl
  · cases hh : highestBid i.bids with
    | none => rfl
    | some hb => simp [save_end_date]

/-- Processing a listing does not change its active flag. -/
theorem resolveStep_is_active (now : Int) (i : Item) :
    (resolveStep now i).1.is_active = i.is_active := by
  unfold resolveStep
  split
  · rfl
  · cases hh : highestBid i.bids with
    | none => rfl
    | some hb => simp [save_is_active]

/-- Explicit form of `resolveStep` on a listing with bids whose end date has
passed: the saved winner is the highest bid's bidder and the error flag is
its nullness. -/
theorem resolveStep_of_highest (now : Int) (i : Item) (hb : Bid)
    (hne : i.bids.isEmpty = false) (hhb : highestBid i.bids = some hb)
    (hend : ¬ now < i.end_date) :
    (resolveStep now i).1 = Item.save now { i with winner := hb.bidder } ∧
    (resolveStep now i).1.winner = hb.bidder ∧
    (resolveStep now i).2 = hb.bidder.isNone := by
  have h1 : (resolveStep now i).1 = Item.save now { i with winner := hb.bidder } := by
    unfold resolveStep
    simp [hne, hhb]
  have h2 : (resolveStep now i).2 =
      (Item.save now { i with winner := hb.bidder }).winner.isNone := by
    unfold resolveStep
    simp [hne, hhb]
  have hw := save_winner_stable now { i with winner := hb.bidder } hend
  refine ⟨h1, ?_, ?_⟩
  · rw [h1, hw]
  · rw [h2, hw]

/-- Unfolding of the scan predicate. -/
theorem eligible_iff (now : Int) (i : Item) :
    eligible now i = true ↔
      i.end_date < now ∧ i.winner = none ∧ i.is_active = true := by
  simp [eligible, Option.isNone_iff_eq_none, and_assoc]

/-- A listing with no bids is left untouched (only a log line is written). -/
theorem resolveStep_empty (now : Int) (i : Item) (h : i.bids.isEmpty = true) :
    resolveStep now i = (i, false) := by
  unfold resolveStep
  rw [if_pos h]

/-- Updating the winner to `none` on a row whose winner is already `none` is
the identity. -/
theorem update_winner_none (j : Item) (h : j.winner = none) :
    ({ j with winner := none } : Item) = j := by
  rcases j with ⟨a1, a2, a3, a4, a5, a6, a7, a8, a9⟩
  have h2 : a6 = none := h
  subst h2
  rfl

/-- Unfolding of `resolveList` on a non-eligible head. -/
theorem resolveList_cons_skip (now : Int) (a : Item) (rest : List Item)
    (h : ¬ eligible now a = true) :
    resolveList now (a :: rest) =
      (a :: (resolveList now rest).1, (resolveList now rest).2.1,
        (resolveList now rest).2.2) := by
  rw [resolveList_cons, if_neg h]

/-- Unfolding of `resolveList` on an eligible head whose processing raises: the run aborts
with the saved head, and the remaining listings are returned unvisited. -/
theorem resolveList_cons_err (now : Int) (a : Item) (rest : List Item)
    (he : eligible now a = true) (herr : (resolveStep now a).2 = true) :
    resolveList now (a :: rest) =
      ((resolveStep now a).1 :: rest,
        stepAssigns a.id (resolveStep now a).1, true) := by
  rw [resolveList_cons, if_pos he, if_pos herr]

/-- Unfolding of `resolveList` on an eligible head whose processing succeeds. -/
theorem resolveList_cons_ok (now : Int) (a : Item) (rest : List Item)
    (he : eligible now a = true) (herr : ¬ (resolveStep now a).2 = true) :
    resolveList now (a :: rest) =
      ((resolveStep now a).1 :: (resolveList now rest).1,
        stepAssigns a.id (resolveStep now a).1 ++ (resolveList now rest).2.1,
        (resolveList now rest).2.2) := by
  rw [resolveList_cons, if_pos he, if_neg herr]

/-- The erroring step is a fixpoint: the saved listing still has a null
winner, still matches the scan predicate, and processing it again saves the
same row and raises again. -/
theorem errStep_fixpoint (now : Int) (i : Item)
    (he : eligible now i = true) (herr : (resolveStep now i).2 = true) :
    (resolveStep now i).1.winner = none ∧
    eligible now (resolveStep now i).1 = true ∧
    resolveStep now (resolveStep now i).1 = ((resolveStep now i).1, true) := by
  obtain ⟨hend, hwin, hact⟩ := (eligible_iff now i).mp he
  have hne : i.bids.isEmpty = false := by
    cases hbe : i.bids.isEmpty
    · rfl
    · rw [resolveStep_empty now i hbe] at herr
      exact Bool.noConfusion herr
  have hbne : i.bids ≠ [] := by
    cases hl : i.bids
    · rw [hl] at hne
      exact Bool.noConfusion hne
    · simp
  obtain ⟨hb, hhb⟩ := Option.isSome_iff_exists.mp (highestBid_isSome i.bids hbne)
  have hstep := resolveStep_of_highest now i hb hne hhb (by omega)
  have hbnull : hb.bidder = none := by
    rw [hstep.2.2] at herr
    exact Option.isNone_iff_eq_none.mp herr
  have hw2 : (resolveStep now i).1.winner = none := by
    rw [hstep.2.1, hbnull]
  refine ⟨hw2, ?_, ?_⟩
  · rw [eligible_iff]
    refine ⟨?_, hw2, ?_⟩
    · rw [resolveStep_end_date]
      exact hend
    · rw [resolveStep_is_active]
      exact hact
  · have hne2 : (resolveStep now i).1.bids.isEmpty = false := by
      rw [resolveStep_bids]
      exact hne
    have hhb2 : highestBid (resolveStep now i).1.bids = some hb := by
      rw [resolveStep_bids]
      exact hhb
    have hend2 : ¬ now < (resolveStep now i).1.end_date := by
      rw [resolveStep_end_date]
      omega
    have hstep2 := resolveStep_of_highest now (resolveStep now i).1 hb hne2 hhb2 hend2
    have hupd : ({ (resolveStep now i).1 with winner := hb.bidder } : Item)
        = (resolveStep now i).1 := by
      rw [hbnull]
      exact update_winner_none _ hw2
    have hfix1 : (resolveStep now (resolveStep now i).1).1 = (resolveStep now i).1 := by
      rw [hstep2.1, hupd, hstep.1, save_save, ← hstep.1]
    have hfix2 : (resolveStep now (resolveStep now i).1).2 = true := by
      rw [hstep2.2.2, hbnull]
      rfl

    rw [Prod.ext_iff]
    exact ⟨hfix1, hfix2⟩

/-- Running the resolver a second time over the result of a first run leaves
the store unchanged, records no assignment, and errors exactly when the first
run did. -/
theorem resolveList_idem (now : Int) (store : List Item) :
    resolveList now (resolveList now store).1 =
      ((resolveList now store).1, [], (resolveList now store).2.2) := by
  induction store with
  | nil => rfl
  | cons a rest ih =>
      by_cases he : eligible now a = true
      · by_cases herr : (resolveStep now a).2 = true
        · obtain ⟨hw2, he2, hfix⟩ := errStep_fixpoint now a he herr
          have hc1 : (resolveStep now (resolveStep now a).1).1 =
              (resolveStep now a).1 := by
            rw [hfix]
          have hc2 : (resolveStep now (resolveStep now a).1).2 = true := by
            rw [hfix]
          rw [resolveList_cons_err now a rest he herr]
          dsimp only
          rw [resolveList_cons_err now (resolveStep now a).1 rest he2 hc2, hc1]
          simp [stepAssigns, hw2]
        · have hwa : a.winner = none := ((eligible_iff now a).mp he).2.1
          rw [resolveList_cons_ok now a rest he herr]
          dsimp only
          by_cases hbe : a.bids.isEmpty = true
          · have ha2 : resolveStep now a = (a, false) := resolveStep_empty now a hbe
            rw [ha2]
            dsimp only
            rw [resolveList_cons_ok now a (resolveList now rest).1 he
              (by simp [ha2])]
            rw [ih]
            dsimp only
            simp [ha2, stepAssigns, hwa]
          · have hne : a.bids.isEmpty = false := by
              cases hx : a.bids.isEmpty
              · rfl
              · exact absurd hx hbe
            have hbne : a.bids ≠ [] := by
              cases hl : a.bids
              · rw [hl] at hne
                exact Bool.noConfusion hne
              · simp
            obtain ⟨hb, hhb⟩ :=
              Option.isSome_iff_exists.mp (highestBid_isSome a.bids hbne)
            have hend : a.end_date < now := ((eligible_iff now a).mp he).1
            have hstep := resolveStep_of_highest now a hb hne hhb (by omega)
            have hbsome : ∃ w, hb.bidder = some w := by
              cases hbb : hb.bidder with
              | none =>
                  exfalso
                  apply herr
                  rw [hstep.2.2, hbb]
                  rfl
              | some w => exact ⟨w, rfl⟩
            obtain ⟨w, hw⟩ := hbsome
            have hw2 : (resolveStep now a).1.winner = some w := by
              rw [hstep.2.1, hw]
            have hel2 : ¬ eligible now (resolveStep now a).1 = true := by
              simp [eligible, hw2]
            rw [resolveList_cons_skip now (resolveStep now a).1
              (resolveList now rest).1 hel2, ih]
      · rw [resolveList_cons_skip now a rest he]
        dsimp only
        rw [resolveList_cons_skip now a (resolveList now rest).1 he, ih]

/-- Claim C8: running the winner resolver twice in succession over the same
state assigns a winner to any listing at most once — a listing whose winner
became non-null in the first run no longer matches the `winner IS NULL` scan,
so the second run records no assignment at all and returns the store exactly
as the first run left it. -/
theorem winner_resolver_idempotent (now : Int) (store : List Item) :
    (resolveList now (resolveList now store).1).1 = (resolveList now store).1 ∧
    (resolveList now (resolveList now store).1).2.1 = [] := by
  rw [resolveList_idem now store]
  exact ⟨rfl, rfl⟩

/-- Counterexample to claim C2: listing 1 (ended, active, winnerless, highest
bid by an anonymised user) errors during its assignment and aborts the run,
so listing 2 — ended, active, winnerless, with a perfectly good highest bid
by user 4 — is never visited: the store is returned unchanged and no
assignment is recorded, contradicting "every other eligible listing is still
visited and resolved". -/
theorem resolver_abort_counterexample :
    eligible 100 (⟨2, 10, 7, 0, true, none, false, none, [⟨some 4, 7⟩]⟩ : Item) = true ∧
    highestBid [⟨some 4, 7⟩] = some ⟨some 4, 7⟩ ∧
    (resolveList 100
        [⟨1, 10, 5, 0, true, none, false, none, [⟨none, 5⟩]⟩,
         ⟨2, 10, 7, 0, true, none, false, none, [⟨some 4, 7⟩]⟩]).2.2 = true ∧
    (resolveList 100
        [⟨1, 10, 5, 0, true, none, false, none, [⟨none, 5⟩]⟩,
         ⟨2, 10, 7, 0, true, none, false, none, [⟨some 4, 7⟩]⟩]).1 =
      [⟨1, 10, 5, 0, true, none, false, none, [⟨none, 5⟩]⟩,
       ⟨2, 10, 7, 0, true, none, false, none, [⟨some 4, 7⟩]⟩] ∧
    (resolveList 100
        [⟨1, 10, 5, 0, true, none, false, none, [⟨none, 5⟩]⟩,
         ⟨2, 10, 7, 0, true, none, false, none, [⟨some 4, 7⟩]⟩]).2.1 = [] := by
  refine ⟨by decide, by decide, by decide, by decide, by decide⟩

/-- Claim C2 (amended): an error raised while assigning one listing's winner
propagates out of the loop and aborts the batch: the erroring listing's row
(with its null winner) has already been saved, no assignment is recorded, and
every listing after it in iteration order is left unvisited. -/
theorem resolver_abort_amended (now : Int) (a : Item) (rest : List Item)
    (he : eligible now a = true) (herr : (resolveStep now a).2 = true) :
    resolveList now (a :: rest) = ((resolveStep now a).1 :: rest, [], true) := by
  rw [resolveList_cons_err now a rest he herr]
  obtain ⟨hw2, -, -⟩ := errStep_fixpoint now a he herr
  simp [stepAssigns, hw2]

/-- Witness for `resolver_abort_amended` at the concrete two-listing store of
the counterexample. -/
theorem resolver_abort_amended_witness :
    resolveList 100
        [⟨1, 10, 5, 0, true, none, false, none, [⟨none, 5⟩]⟩,
         ⟨2, 10, 7, 0, true, none, false, none, [⟨some 4, 7⟩]⟩] =
      ((resolveStep 100 ⟨1, 10, 5, 0, true, none, false, none, [⟨none, 5⟩]⟩).1 ::
        [⟨2, 10, 7, 0, true, none, false, none, [⟨some 4, 7⟩]⟩], [], true) :=
  resolver_abort_amended 100 ⟨1, 10, 5, 0, true, none, false, none, [⟨none, 5⟩]⟩
    [⟨2, 10, 7, 0, true, none, false, none, [⟨some 4, 7⟩]⟩] (by decide) (by decide)

/-- Claim C10: an ended, active, winnerless listing whose highest bid has a
null bidder is processed by setting its winner to null and saving, after
which reporting the assignment raises (the error flag), and — for every
number of subsequent runs — the listing is still winnerless, still matches
the scan predicate, and every run over it errors again without recording an
assignment: it is never terminally resolved. -/
theorem orphan_highest_bid_never_resolved (now : Int) (i : Item) (hb : Bid)
    (hend : i.end_date < now) (hact : i.is_active = true) (hwin : i.winner = none)
    (hhb : highestBid i.bids = some hb) (hnull : hb.bidder = none) :
    ((resolveStep now i).1.winner = none ∧ (resolveStep now i).2 = true) ∧
    (∀ n, ∃ j, resolveIter now n [i] = [j] ∧ j.winner = none ∧
      eligible now j = true ∧
      (resolveList now [j]).2.2 = true ∧ (resolveList now [j]).2.1 = []) := by
  have he : eligible now i = true := (eligible_iff now i).mpr ⟨hend, hwin, hact⟩
  have hne : i.bids.isEmpty = false := highestBid_ne_nil i.bids hb hhb
  have hstep := resolveStep_of_highest now i hb hne hhb (by omega)
  have herr : (resolveStep now i).2 = true := by
    rw [hstep.2.2, hnull]
    rfl
  obtain ⟨hw2, he2, hfix⟩ := errStep_fixpoint now i he herr
  have hrun_i : resolveList now [i] = ((resolveStep now i).1 :: [], [], true) := by
    rw [resolveList_cons_err now i [] he herr]
    simp [stepAssigns, hw2]
  have herr2 : (resolveStep now (resolveStep now i).1).2 = true := by
    rw [hfix]
  have hrun_i2 : resolveList now [(resolveStep now i).1] =
      ((resolveStep now i).1 :: [], [], true) := by
    rw [resolveList_cons_err now (resolveStep now i).1 [] he2 herr2]
    simp [hfix, stepAssigns, hw2]
  refine ⟨⟨hw2, herr⟩, ?_⟩
  intro n
  cases n with
  | zero => exact ⟨i, rfl, hwin, he, by simp [hrun_i], by simp [hrun_i]⟩
  | succ m =>
      have hiter : ∀ k, resolveIter now k [(resolveStep now i).1] =
          [(resolveStep now i).1] := by
        intro k
        induction k with
        | zero => rfl
        | succ k ihk =>
            show resolveIter now k (resolveList now [(resolveStep now i).1]).1 = _
            rw [hrun_i2]
            exact ihk
      refine ⟨(resolveStep now i).1, ?_, hw2, he2,
        by simp [hrun_i2], by simp [hrun_i2]⟩
      show resolveIter now m (resolveList now [i]).1 = _
      rw [hrun_i]
      exact hiter m

/-- Witness for `orphan_highest_bid_never_resolved` at a concrete listing
(id 1, ended, active, winnerless, single bid of 20 by an anonymised user),
instantiating the quantifier at three runs. -/
theorem orphan_highest_bid_never_resolved_witness :
    (((resolveStep 100 ⟨1, 10, 20, 0, true, none, false, none, [⟨none, 20⟩]⟩).1.winner
        = none) ∧
      (resolveStep 100 ⟨1, 10, 20, 0, true, none, false, none, [⟨none, 20⟩]⟩).2 = true) ∧
    (∃ j, resolveIter 100 3 [⟨1, 10, 20, 0, true, none, false, none, [⟨none, 20⟩]⟩] = [j] ∧
      j.winner = none ∧ eligible 100 j = true ∧
      (resolveList 100 [j]).2.2 = true ∧ (resolveList 100 [j]).2.1 = []) := by
  have h := orphan_highest_bid_never_resolved 100
    ⟨1, 10, 20, 0, true, none, false, none, [⟨none, 20⟩]⟩ ⟨none, 20⟩
    (by decide) rfl rfl rfl rfl
  exact ⟨h.1, h.2 3⟩

end Auctions
